import Mathlib

/-!
Shallow embedding of `src/SGD.py`: a projected stochastic gradient descent
experiment for regularized logistic regression over two constrained domains
(hypercube and Euclidean ball).

Modelling conventions:
* Python lists / numpy 1-d arrays of floats become `List ℝ`.
* The integer `scenario` flag stays an integer (`ℤ`), since the code
  dispatches on the literal values 1 and 2 and silently skips projection
  for every other value.
* Randomness (`get_Sample_Point`) is modelled by an explicit oracle
  `ℕ → List ℝ × ℝ` handing the trainer the sample drawn at each loop index.
* `np.average` of a list is sum / length; `np.std` is the population
  standard deviation; `np.min` is the minimum of a non-empty list
  (modelled with default 0 on the empty list, which the code never hits).
-/

namespace SGD

/-- Global constant `inputDimension = 5` from the source. -/
def inputDimension : ℕ := 5

/-- One coordinate of the hypercube branch of `project`: values above 1 are
set to 1, values below -1 are set to -1, everything else is unchanged. -/
noncomputable def clamp (x : ℝ) : ℝ :=
  if 1 < x then 1 else if x < -1 then -1 else x

/-- Sum of squares of the entries of a vector (the loop body of `norm`). -/
def sumSq (v : List ℝ) : ℝ := (v.map (fun x => x * x)).sum

/-- The function `norm` of the source: square root of the sum of squares. -/
noncomputable def norm (v : List ℝ) : ℝ := Real.sqrt (sumSq v)

/-- The function `project` of the source.  Scenario 1 clamps every
coordinate to [-1, 1]; scenario 2 rescales by the reciprocal norm when the
norm exceeds 1; any other scenario value leaves the vector unchanged. -/
noncomputable def project (scenario : ℤ) (v : List ℝ) : List ℝ :=
  if scenario = 1 then v.map clamp
  else if scenario = 2 then
    if 1 < norm v then v.map (fun x => x / norm v) else v
  else v

/-- Dot product of two vectors, as `np.dot` on equal-length 1-d arrays. -/
def dot (w x : List ℝ) : ℝ := (List.zipWith (fun a b => a * b) w x).sum

/-- The value of `np.sign`: 1 on positives, -1 on negatives, 0 at 0. -/
noncomputable def npSign (x : ℝ) : ℝ :=
  if 0 < x then 1 else if x < 0 then -1 else 0

/-- The function `binary_loss` of the source:
`int(np.sign(np.dot(w, x)) != y)`. -/
noncomputable def binary_loss (w x : List ℝ) (y : ℝ) : ℝ :=
  if npSign (dot w x) ≠ y then 1 else 0

/-- The function `logistic_loss` of the source:
`np.log(1 + np.exp(-np.dot(w, x) * y))`. -/
noncomputable def logistic_loss (w x : List ℝ) (y : ℝ) : ℝ :=
  Real.log (1 + Real.exp (-(dot w x) * y))

/-- The function `logistic_loss_gradient` of the source:
`-1/(1 + np.exp(y * np.dot(W, X))) * y * X`, an elementwise scaling of X. -/
noncomputable def logistic_loss_gradient (W X : List ℝ) (y : ℝ) : List ℝ :=
  X.map (fun xi => -1 / (1 + Real.exp (y * dot W X)) * y * xi)

/-- Mean of a list of reals, as `np.average` on a non-empty list. -/
noncomputable def avg (l : List ℝ) : ℝ := l.sum / l.length

/-- Minimum of a list of reals, as `np.min` on a non-empty list
(default 0 on the empty list, which the code never evaluates). -/
noncomputable def npMin : List ℝ → ℝ
  | [] => 0
  | [x] => x
  | x :: xs => min x (npMin xs)

/-- Population standard deviation of a list of reals, as `np.std`. -/
noncomputable def npStd (l : List ℝ) : ℝ :=
  Real.sqrt (avg (l.map (fun x => (x - avg l) ^ 2)))

/-- Average logistic loss of one predictor over a test dataset
(the list comprehension plus `np.average` inside `computeLosses`). -/
noncomputable def avgLogisticLoss (W : List ℝ) (ds : List (List ℝ × ℝ)) : ℝ :=
  avg (ds.map (fun s => logistic_loss W s.1 s.2))

/-- Average binary loss of one predictor over a test dataset
(the list comprehension plus `np.average` inside `computeLosses`). -/
noncomputable def avgBinaryLoss (W : List ℝ) (ds : List (List ℝ × ℝ)) : ℝ :=
  avg (ds.map (fun s => binary_loss W s.1 s.2))

/-- The four scalars returned by `computeLosses`, in source order. -/
structure LossEstimates where
  excess_risk : ℝ
  std_risk : ℝ
  avg_binary_err : ℝ
  std_binary_err : ℝ

/-- The function `computeLosses` of the source: per-predictor average
logistic and binary losses over the fixed test set, then
(mean - min, std) for the logistic losses and (mean, std) for the
binary losses. -/
noncomputable def computeLosses (W_hat_list : List (List ℝ))
    (test_dataset : List (List ℝ × ℝ)) : LossEstimates :=
  let ll := W_hat_list.map (fun W => avgLogisticLoss W test_dataset)
  let bl := W_hat_list.map (fun W => avgBinaryLoss W test_dataset)
  ⟨avg ll - npMin ll, npStd ll, avg bl, npStd bl⟩

/-- The constant `M` of `sgd`: `np.sqrt(2^2*(inputDimension+1))` for the
hypercube scenario, 2 otherwise (the code's `else` branch). -/
noncomputable def M (scenario : ℤ) : ℝ :=
  if scenario = 1 then Real.sqrt (2 ^ 2 * ((inputDimension : ℝ) + 1)) else 2

/-- The constant `rho = M/2` of `sgd`. -/
noncomputable def rho (scenario : ℤ) : ℝ := M scenario / 2

/-- The constant `learning_rate = M/(rho*np.sqrt(num_training_samples))`
of `sgd`, computed once from the total iteration budget. -/
noncomputable def learning_rate (scenario : ℤ) (num_training_samples : ℕ) : ℝ :=
  M scenario / (rho scenario * Real.sqrt (num_training_samples : ℝ))

/-- The zero vector `np.zeros(n)`. -/
def zeros (n : ℕ) : List ℝ := List.replicate n 0

/-- Elementwise difference of two equal-length vectors. -/
def vsub (v w : List ℝ) : List ℝ := List.zipWith (fun a b => a - b) v w

/-- Elementwise sum of two equal-length vectors. -/
def vadd (v w : List ℝ) : List ℝ := List.zipWith (fun a b => a + b) v w

/-- Scalar times vector, elementwise. -/
def smul (c : ℝ) (v : List ℝ) : List ℝ := v.map (fun x => c * x)

/-- The iterates of the `sgd` loop: entry 0 is the zero initialization,
and entry i+1 applies one update with the sample drawn at loop index i+1
followed by projection, exactly as the loop body
`W = project(scenario, W - learning_rate*logistic_loss_gradient(W, X, y))`. -/
noncomputable def sgdIter (scenario : ℤ) (lr : ℝ) (oracle : ℕ → List ℝ × ℝ) :
    ℕ → List ℝ
  | 0 => zeros (inputDimension + 1)
  | i + 1 =>
    let W := sgdIter scenario lr oracle i
    let s := oracle (i + 1)
    project scenario (vsub W (smul lr (logistic_loss_gradient W s.1 s.2)))

/-- The list `W_list` built by `sgd`: the initial zero vector followed by
the iterate produced at each loop index 1, ..., num-1. -/
noncomputable def trajectory (num : ℕ) (scenario : ℤ)
    (oracle : ℕ → List ℝ × ℝ) : List (List ℝ) :=
  (List.range num).map (sgdIter scenario (learning_rate scenario num) oracle)

/-- Coordinate-wise average of a list of vectors,
as `np.average(np.array(W_list), axis=0)` on equal-length rows. -/
noncomputable def vavg (ls : List (List ℝ)) : List ℝ :=
  smul (1 / (ls.length : ℝ)) (ls.foldr vadd (zeros (inputDimension + 1)))

/-- The function `sgd` of the source, with the random sampler passed as an
explicit oracle: build the trajectory, return its coordinate-wise average. -/
noncomputable def sgd (num_training_samples : ℕ) (scenario : ℤ)
    (oracle : ℕ → List ℝ × ℝ) : List ℝ :=
  vavg (trajectory num_training_samples scenario oracle)

/-! Helper lemmas. -/

theorem clamp_clamp (x : ℝ) : clamp (clamp x) = clamp x := by
  unfold clamp
  split_ifs <;> linarith

theorem clamp_mem (x : ℝ) : -1 ≤ clamp x ∧ clamp x ≤ 1 := by
  unfold clamp
  split_ifs <;> constructor <;> linarith

theorem sumSq_nil : sumSq [] = 0 := rfl

theorem sumSq_cons (a : ℝ) (t : List ℝ) : sumSq (a :: t) = a * a + sumSq t := by
  simp [sumSq]

theorem sumSq_nonneg (v : List ℝ) : 0 ≤ sumSq v := by
  induction v with
  | nil => simp [sumSq_nil]
  | cons a t ih =>
    rw [sumSq_cons]
    nlinarith [mul_self_nonneg a]

theorem norm_nonneg' (v : List ℝ) : 0 ≤ norm v := Real.sqrt_nonneg _

theorem sumSq_map_div (v : List ℝ) (c : ℝ) :
    sumSq (v.map (fun x => x / c)) = sumSq v / c ^ 2 := by
  induction v with
  | nil => simp [sumSq_nil]
  | cons a t ih =>
    rw [List.map_cons, sumSq_cons, sumSq_cons, ih, div_mul_div_comm,
      ← pow_two c, div_add_div_same]

theorem norm_map_div_norm (v : List ℝ) (h : 1 < norm v) :
    norm (v.map (fun x => x / norm v)) = 1 := by
  have hs : norm v ^ 2 = sumSq v := Real.sq_sqrt (sumSq_nonneg v)
  have hpos : (0 : ℝ) < sumSq v := by nlinarith
  show Real.sqrt (sumSq (v.map (fun x => x / norm v))) = 1
  rw [sumSq_map_div, hs, div_self (ne_of_gt hpos), Real.sqrt_one]

theorem project_one (v : List ℝ) : project 1 v = v.map clamp := by
  simp [project]

theorem project_two_of_le (v : List ℝ) (h : ¬ 1 < norm v) :
    project 2 v = v := by
  simp [project, h]

theorem project_two_of_lt (v : List ℝ) (h : 1 < norm v) :
    project 2 v = v.map (fun x => x / norm v) := by
  simp [project, h]

theorem norm_project_two_le (v : List ℝ) : norm (project 2 v) ≤ 1 := by
  by_cases h : 1 < norm v
  · rw [project_two_of_lt v h, norm_map_div_norm v h]
  · rw [project_two_of_le v h]
    exact le_of_not_lt h

theorem npMin_singleton (x : ℝ) : npMin [x] = x := rfl

theorem npMin_cons_cons (x b : ℝ) (u : List ℝ) :
    npMin (x :: b :: u) = min x (npMin (b :: u)) := rfl

theorem npMin_le_of_mem {l : List ℝ} {a : ℝ} (h : a ∈ l) : npMin l ≤ a := by
  induction l with
  | nil => cases h
  | cons x t ih =>
    cases t with
    | nil =>
      rw [List.mem_singleton] at h
      subst h
      rw [npMin_singleton]
    | cons b u =>
      rw [npMin_cons_cons]
      rcases List.mem_cons.mp h with h1 | h2
      · rw [h1]
        exact min_le_left _ _
      · exact le_trans (min_le_right _ _) (ih h2)

theorem card_mul_npMin_le_sum (l : List ℝ) :
    (l.length : ℝ) * npMin l ≤ l.sum := by
  induction l with
  | nil => simp
  | cons x t ih =>
    cases t with
    | nil => simp [npMin_singleton]
    | cons b u =>
      rw [npMin_cons_cons]
      have h1 : min x (npMin (b :: u)) ≤ x := min_le_left _ _
      have h2 : min x (npMin (b :: u)) ≤ npMin (b :: u) := min_le_right _ _
      have h3 : (0 : ℝ) ≤ (((b :: u).length : ℕ) : ℝ) := by positivity
      have h4 := mul_le_mul_of_nonneg_left h2 h3
      rw [List.length_cons, List.sum_cons]
      push_cast
      push_cast at ih h4
      linarith

theorem npMin_le_avg {l : List ℝ} (h : l ≠ []) : npMin l ≤ avg l := by
  have hl : 0 < (l.length : ℝ) := by
    have := List.length_pos.mpr h
    exact_mod_cast this
  rw [avg, le_div_iff₀ hl, mul_comm]
  exact card_mul_npMin_le_sum l

theorem avg_const {l : List ℝ} {c : ℝ} (h : l ≠ []) (hc : ∀ x ∈ l, x = c) :
    avg l = c := by
  have hs : l.sum = l.length • c := List.sum_eq_card_nsmul l c hc
  have hl : (l.length : ℝ) ≠ 0 :=
    Nat.cast_ne_zero.mpr (List.length_pos.mpr h).ne'
  rw [avg, hs, nsmul_eq_mul, mul_div_cancel_left₀ _ hl]

theorem npStd_const {l : List ℝ} {c : ℝ} (h : l ≠ []) (hc : ∀ x ∈ l, x = c) :
    npStd l = 0 := by
  have ha : avg l = c := avg_const h hc
  have h2 : ∀ z ∈ l.map (fun x => (x - avg l) ^ 2), z = 0 := by
    intro z hz
    rcases List.mem_map.mp hz with ⟨x, hx, rfl⟩
    rw [hc x hx, ha, sub_self]
    ring
  have hne : l.map (fun x => (x - avg l) ^ 2) ≠ [] := by
    intro hmap
    exact h (List.map_eq_nil_iff.mp hmap)
  unfold npStd
  rw [avg_const hne h2, Real.sqrt_zero]

theorem clamp_zero : clamp 0 = 0 := by
  unfold clamp
  norm_num

theorem sumSq_zeros (n : ℕ) : sumSq (zeros n) = 0 := by
  unfold sumSq zeros
  rw [List.map_replicate, List.sum_replicate]
  simp

theorem norm_zeros (n : ℕ) : norm (zeros n) = 0 := by
  unfold norm
  rw [sumSq_zeros, Real.sqrt_zero]

/-! Claim theorems. -/

/-- C3: for every real vector v, projection is idempotent under both the
HYPERCUBE scenario (1) and the BALL scenario (2):
project(project(v)) = project(v). -/
theorem project_idempotent (v : List ℝ) :
    project 1 (project 1 v) = project 1 v ∧
    project 2 (project 2 v) = project 2 v := by
  constructor
  · rw [project_one, project_one, List.map_map]
    have hc : clamp ∘ clamp = clamp := funext clamp_clamp
    rw [hc]
  · by_cases h : 1 < norm v
    · have h1 : norm (project 2 v) = 1 := by
        rw [project_two_of_lt v h, norm_map_div_norm v h]
      exact project_two_of_le _ (by rw [h1]; exact lt_irrefl 1)
    · rw [project_two_of_le v h]
      exact project_two_of_le v h

/-- C4: under HYPERCUBE every coordinate of the projected vector lies in
[-1, 1]; under BALL the Euclidean norm of the projected vector is at most
1; and the zero vector (of any dimension) is a fixed point of both
projection rules. -/
theorem project_range (v : List ℝ) (n : ℕ) :
    (project 1 v).Forall (fun a => -1 ≤ a ∧ a ≤ 1) ∧
    norm (project 2 v) ≤ 1 ∧
    project 1 (zeros n) = zeros n ∧
    project 2 (zeros n) = zeros n := by
  refine ⟨?_, norm_project_two_le v, ?_, ?_⟩
  · rw [List.forall_iff_forall_mem]
    intro a ha
    rw [project_one] at ha
    rcases List.mem_map.mp ha with ⟨x, _, rfl⟩
    exact clamp_mem x
  · rw [project_one, zeros, List.map_replicate, clamp_zero]
  · apply project_two_of_le
    rw [norm_zeros]
    norm_num

/-- C10: for every scenario value other than 1 (HYPERCUBE) and 2 (BALL),
project returns the input vector unchanged: both branches are skipped. -/
theorem project_invalid_scenario (s : ℤ) (v : List ℝ)
    (h1 : s ≠ 1) (h2 : s ≠ 2) : project s v = v := by
  simp [project, h1, h2]

/-- Witness for C10 at the concrete scenario 3 and the vector [5, -7]. -/
theorem project_invalid_scenario_witness :
    (3 : ℤ) ≠ 1 ∧ (3 : ℤ) ≠ 2 ∧ project 3 [(5 : ℝ), -7] = [(5 : ℝ), -7] :=
  ⟨by decide, by decide,
    project_invalid_scenario 3 [(5 : ℝ), -7] (by decide) (by decide)⟩

/-- C5: for labels y in \x7b-1, +1\x7d, binary_loss only takes the values 0
and 1; it equals 1 exactly when the sign of the dot product differs from
the label; and when the dot product is 0 its sign is 0, which matches
neither label, so the loss is 1 for both labels. -/
theorem binary_loss_spec (w x : List ℝ) (y : ℝ) (hy : y = -1 ∨ y = 1) :
    (binary_loss w x y = 0 ∨ binary_loss w x y = 1) ∧
    (binary_loss w x y = 1 ↔ npSign (dot w x) ≠ y) ∧
    (dot w x = 0 → binary_loss w x y = 1) := by
  refine ⟨?_, ?_, ?_⟩
  · unfold binary_loss
    split_ifs <;> simp
  · unfold binary_loss
    split_ifs with h
    · simp [h]
    · simp [h]
  · intro hd
    unfold binary_loss
    rw [hd]
    have hs : npSign 0 = 0 := by
      unfold npSign
      norm_num
    rw [hs]
    rcases hy with rfl | rfl
    · rw [if_pos (by norm_num)]
    · rw [if_pos (by norm_num)]

/-- Witness for C5 at w = [1], x = [0], y = 1, where the dot product is 0
and the loss is 1. -/
theorem binary_loss_spec_witness :
    ((1 : ℝ) = -1 ∨ (1 : ℝ) = 1) ∧ binary_loss [(1 : ℝ)] [(0 : ℝ)] 1 = 1 :=
  ⟨Or.inr rfl,
    (binary_loss_spec [(1 : ℝ)] [(0 : ℝ)] 1 (Or.inr rfl)).2.2
      (by simp [dot])⟩

/-- C2: the excess-risk output of computeLosses equals the mean of the
per-predictor average logistic losses minus their minimum, and it is
nonnegative. -/
theorem computeLosses_excess_risk (Ws : List (List ℝ))
    (ds : List (List ℝ × ℝ)) (hW : Ws ≠ []) (hd : ds ≠ []) :
    (computeLosses Ws ds).excess_risk =
      avg (Ws.map (fun W => avgLogisticLoss W ds)) -
        npMin (Ws.map (fun W => avgLogisticLoss W ds)) ∧
    0 ≤ (computeLosses Ws ds).excess_risk := by
  constructor
  · rfl
  · have hne : Ws.map (fun W => avgLogisticLoss W ds) ≠ [] := by
      intro hmap
      exact hW (List.map_eq_nil_iff.mp hmap)
    exact sub_nonneg.mpr (npMin_le_avg hne)

/-- Witness for C2 at one predictor [1] and one test sample ([1], 1). -/
theorem computeLosses_excess_risk_witness :
    ([[(1 : ℝ)]] ≠ ([] : List (List ℝ))) ∧
    ([([(1 : ℝ)], (1 : ℝ))] ≠ ([] : List (List ℝ × ℝ))) ∧
    0 ≤ (computeLosses [[(1 : ℝ)]] [([(1 : ℝ)], 1)]).excess_risk :=
  ⟨by simp, by simp,
    (computeLosses_excess_risk [[(1 : ℝ)]] [([(1 : ℝ)], 1)]
      (by simp) (by simp)).2⟩

/-- C8: when every predictor in the collection is the same vector, the
standard deviations of both the risk and the binary error are zero. -/
theorem computeLosses_identical_predictors (Ws : List (List ℝ))
    (ds : List (List ℝ × ℝ)) (w0 : List ℝ) (hW : Ws ≠ []) (hd : ds ≠ [])
    (hid : ∀ w ∈ Ws, w = w0) :
    (computeLosses Ws ds).std_risk = 0 ∧
    (computeLosses Ws ds).std_binary_err = 0 := by
  constructor
  · have hne : Ws.map (fun W => avgLogisticLoss W ds) ≠ [] := by
      intro hmap
      exact hW (List.map_eq_nil_iff.mp hmap)
    have hcc : ∀ z ∈ Ws.map (fun W => avgLogisticLoss W ds),
        z = avgLogisticLoss w0 ds := by
      intro z hz
      rcases List.mem_map.mp hz with ⟨w, hw, rfl⟩
      rw [hid w hw]
    exact npStd_const hne hcc
  · have hne : Ws.map (fun W => avgBinaryLoss W ds) ≠ [] := by
      intro hmap
      exact hW (List.map_eq_nil_iff.mp hmap)
    have hcc : ∀ z ∈ Ws.map (fun W => avgBinaryLoss W ds),
        z = avgBinaryLoss w0 ds := by
      intro z hz
      rcases List.mem_map.mp hz with ⟨w, hw, rfl⟩
      rw [hid w hw]
    exact npStd_const hne hcc

/-- Witness for C8 at two copies of the predictor [1] and one test
sample ([1], 1). -/
theorem computeLosses_identical_predictors_witness :
    ([[(1 : ℝ)], [(1 : ℝ)]] ≠ ([] : List (List ℝ))) ∧
    ([([(1 : ℝ)], (1 : ℝ))] ≠ ([] : List (List ℝ × ℝ))) ∧
    (computeLosses [[(1 : ℝ)], [(1 : ℝ)]] [([(1 : ℝ)], 1)]).std_risk = 0 :=
  ⟨by simp, by simp,
    (computeLosses_identical_predictors [[(1 : ℝ)], [(1 : ℝ)]]
      [([(1 : ℝ)], 1)] [(1 : ℝ)] (by simp) (by simp) (by simp)).1⟩

/-- C9: with a single predictor the excess risk and both standard
deviations returned by computeLosses are exactly zero. -/
theorem computeLosses_single_predictor (w : List ℝ)
    (ds : List (List ℝ × ℝ)) (hd : ds ≠ []) :
    (computeLosses [w] ds).excess_risk = 0 ∧
    (computeLosses [w] ds).std_risk = 0 ∧
    (computeLosses [w] ds).std_binary_err = 0 := by
  refine ⟨?_, ?_, ?_⟩
  · show avg [avgLogisticLoss w ds] - npMin [avgLogisticLoss w ds] = 0
    rw [npMin_singleton]
    simp [avg]
  · exact npStd_const (l := [avgLogisticLoss w ds]) (by simp)
      (by intro z hz; exact List.mem_singleton.mp hz)
  · exact npStd_const (l := [avgBinaryLoss w ds]) (by simp)
      (by intro z hz; exact List.mem_singleton.mp hz)

/-- Witness for C9 at the predictor [1] and one test sample ([1], 1). -/
theorem computeLosses_single_predictor_witness :
    ([([(1 : ℝ)], (1 : ℝ))] ≠ ([] : List (List ℝ × ℝ))) ∧
    (computeLosses [[(1 : ℝ)]] [([(1 : ℝ)], 1)]).excess_risk = 0 :=
  ⟨by simp,
    (computeLosses_single_predictor [(1 : ℝ)] [([(1 : ℝ)], 1)] (by simp)).1⟩

theorem vadd_zeros (n : ℕ) : vadd (zeros n) (zeros n) = zeros n := by
  induction n with
  | zero => rfl
  | succ k ih =>
    unfold zeros at ih ⊢
    rw [List.replicate_succ]
    unfold vadd at ih ⊢
    rw [List.zipWith_cons_cons, ih, add_zero]

theorem smul_zeros (c : ℝ) (n : ℕ) : smul c (zeros n) = zeros n := by
  unfold smul zeros
  rw [List.map_replicate, mul_zero]

/-- C1: for every iteration budget n >= 1, scenario, and sample oracle,
the trainer builds a trajectory of exactly n weight vectors whose first
entry is the zero vector of dimension D+1, and returns the coordinate-wise
average of the whole trajectory, including the initial zero vector. -/
theorem sgd_trajectory_spec (n : ℕ) (scenario : ℤ)
    (oracle : ℕ → List ℝ × ℝ) (hn : 1 ≤ n) :
    (trajectory n scenario oracle).length = n ∧
    (trajectory n scenario oracle).head? =
      some (zeros (inputDimension + 1)) ∧
    sgd n scenario oracle = vavg (trajectory n scenario oracle) := by
  refine ⟨?_, ?_, rfl⟩
  · unfold trajectory
    rw [List.length_map, List.length_range]
  · obtain ⟨m, rfl⟩ : ∃ m, n = m + 1 :=
      ⟨n - 1, (Nat.succ_pred_eq_of_pos hn).symm⟩
    unfold trajectory
    rw [List.range_succ_eq_map]
    rfl

/-- Witness for C1 at budget 2, scenario 1, and a constant sample oracle. -/
theorem sgd_trajectory_spec_witness :
    1 ≤ 2 ∧
    (trajectory 2 1 (fun _ => (zeros (inputDimension + 1), 1))).length = 2 :=
  ⟨by decide,
    (sgd_trajectory_spec 2 1 (fun _ => (zeros (inputDimension + 1), 1))
      (by decide)).1⟩

/-- C6: the trainer's step size is the fixed constant
M / (rho * sqrt(iterations)) with rho = M/2, where M = 2*sqrt(D+1) under
HYPERCUBE and M = 2 under BALL; it is computed once from the total
iteration budget, and every iterate of the trajectory is built with that
same constant step size (no per-iteration decay). -/
theorem sgd_step_size_spec (n : ℕ) :
    M 1 = 2 * Real.sqrt ((inputDimension : ℝ) + 1) ∧
    M 2 = 2 ∧
    rho 1 = M 1 / 2 ∧
    rho 2 = M 2 / 2 ∧
    learning_rate 1 n = M 1 / (rho 1 * Real.sqrt (n : ℝ)) ∧
    learning_rate 2 n = M 2 / (rho 2 * Real.sqrt (n : ℝ)) ∧
    ∀ (scenario : ℤ) (oracle : ℕ → List ℝ × ℝ),
      trajectory n scenario oracle =
        (List.range n).map
          (sgdIter scenario (learning_rate scenario n) oracle) := by
  refine ⟨?_, ?_, rfl, rfl, rfl, rfl, fun _ _ => rfl⟩
  · unfold M
    rw [if_pos rfl, Real.sqrt_mul (by norm_num : (0 : ℝ) ≤ 2 ^ 2),
      Real.sqrt_sq (by norm_num : (0 : ℝ) ≤ 2)]
  · unfold M
    rw [if_neg (by decide)]

/-- C7: training with a budget of 1 iteration executes no update steps,
so the trajectory is the single zero vector and the returned predictor is
exactly the zero vector of dimension D+1, for any scenario and oracle. -/
theorem sgd_one_iteration (scenario : ℤ) (oracle : ℕ → List ℝ × ℝ) :
    trajectory 1 scenario oracle = [zeros (inputDimension + 1)] ∧
    sgd 1 scenario oracle = zeros (inputDimension + 1) := by
  have h1 : trajectory 1 scenario oracle = [zeros (inputDimension + 1)] := by
    unfold trajectory
    have hr : List.range 1 = [0] := rfl
    rw [hr]
    rfl
  refine ⟨h1, ?_⟩
  show vavg (trajectory 1 scenario oracle) = zeros (inputDimension + 1)
  rw [h1]
  unfold vavg
  rw [List.foldr_cons, List.foldr_nil, vadd_zeros, smul_zeros]

end SGD
